import Mathlib

/-!
Verification of the BlackRock micro-savings pipeline core:
transaction derivation, validation, temporal (Q/P/K) rule resolution,
savings aggregation and returns projection.

Dates are modelled as parsed calendar timestamps; monetary values as
rationals. `parse_date` embeds `datetime.strptime` with the fixed
format `%Y-%m-%d %H:%M:%S` (4-digit year, 1-or-2-digit month, day,
hour, minute and second fields with the usual range constraints,
followed by calendar validation).
-/

/-- A parsed calendar timestamp (`datetime` restricted to the fields the
fixed format produces). -/
structure DateTime where
  year : Nat
  month : Nat
  day : Nat
  hour : Nat
  minute : Nat
  second : Nat
deriving DecidableEq, Repr

/-- Order-embedding key: lexicographic on (year, month, day, hour, minute,
second) for in-bounds dates. -/
def DateTime.key (d : DateTime) : Nat :=
  ((((d.year * 13 + d.month) * 32 + d.day) * 24 + d.hour) * 60 + d.minute) * 60 + d.second

def digitVal (c : Char) : Nat := c.toNat - 48

/-- Read exactly four digits (the `%Y` directive). -/
def read4 : List Char → Option (Nat × List Char)
  | a :: b :: c :: d :: rest =>
    if a.isDigit && b.isDigit && c.isDigit && d.isDigit then
      some (1000 * digitVal a + 100 * digitVal b + 10 * digitVal c + digitVal d, rest)
    else none
  | _ => none

/-- Read a one-or-two digit field the way the strptime regex alternation
does: a two-digit form is taken when both characters are digits and the
value is admissible for the directive (`ok2`); otherwise a single digit
admissible under `ok1` is taken and the second character is left for the
following literal. -/
def readField2 (ok2 ok1 : Nat → Bool) : List Char → Option (Nat × List Char)
  | c1 :: c2 :: rest =>
    if c1.isDigit && c2.isDigit then
      let v := 10 * digitVal c1 + digitVal c2
      if ok2 v then some (v, rest) else none
    else if c1.isDigit && ok1 (digitVal c1) then some (digitVal c1, c2 :: rest)
    else none
  | [c1] =>
    if c1.isDigit && ok1 (digitVal c1) then some (digitVal c1, []) else none
  | [] => none

/-- Consume one expected literal character. -/
def expectChar (c : Char) : List Char → Option (List Char)
  | x :: rest => if x = c then some rest else none
  | [] => none

def isLeapYear (y : Nat) : Bool :=
  (y % 4 = 0 && y % 100 ≠ 0) || y % 400 = 0

def days_in_month (y m : Nat) : Nat :=
  if m = 2 then (if isLeapYear y then 29 else 28)
  else if m = 4 || m = 6 || m = 9 || m = 11 then 30
  else 31

/-- `parse_date` from `app/core/temporal.py`: `datetime.strptime(s,
"%Y-%m-%d %H:%M:%S")` returning `none` instead of raising.  The regex
admits second values 60 and 61 but the `datetime` constructor rejects
them, and rejects year 0 and days beyond the month length. -/
def parse_date (s : String) : Option DateTime := do
  let (y, r) ← read4 s.data
  let r ← expectChar '-' r
  let (m, r) ← readField2 (fun v => decide (1 ≤ v ∧ v ≤ 12)) (fun v => decide (1 ≤ v)) r
  let r ← expectChar '-' r
  let (d, r) ← readField2 (fun v => decide (1 ≤ v ∧ v ≤ 31)) (fun v => decide (1 ≤ v)) r
  let r ← expectChar ' ' r
  let (h, r) ← readField2 (fun v => decide (v ≤ 23)) (fun _ => true) r
  let r ← expectChar ':' r
  let (mi, r) ← readField2 (fun v => decide (v ≤ 59)) (fun _ => true) r
  let r ← expectChar ':' r
  let (sec, r) ← readField2 (fun v => decide (v ≤ 61)) (fun _ => true) r
  if r.isEmpty && decide (1 ≤ y) && decide (d ≤ days_in_month y m) && decide (sec ≤ 59) then
    some ⟨y, m, d, h, mi, sec⟩
  else none

example : parse_date "2023-01-05 12:30:45" = some ⟨2023, 1, 5, 12, 30, 45⟩ := by decide
example : parse_date "2023-02-30 00:00:00" = none := by decide
example : parse_date "bad" = none := by decide
example : parse_date "2023-01-05 12:30:45x" = none := by decide

/-! ### Data model (`app/models/schemas.py`) -/

/-- `Expense`: a dated amount. -/
structure Expense where
  date : String
  amount : ℚ
deriving DecidableEq, Repr

/-- `Transaction`: an expense together with its derived ceiling and
remanent. -/
structure Transaction where
  date : String
  amount : ℚ
  ceiling : ℚ
  remanent : ℚ
deriving DecidableEq, Repr

/-- `InvalidTransaction`: a transaction plus a rejection reason. -/
structure InvalidTransaction where
  date : String
  amount : ℚ
  ceiling : ℚ
  remanent : ℚ
  message : String
deriving DecidableEq, Repr

/-- `QPeriod` (override rule).  The source field `end` is rendered `stop`
here (`end` is a Lean keyword); likewise below. -/
structure QPeriod where
  fixed : ℚ
  start : String
  stop : String
deriving DecidableEq, Repr

/-- `PPeriod` (additive rule). -/
structure PPeriod where
  extra : ℚ
  start : String
  stop : String
deriving DecidableEq, Repr

/-- `KPeriod` (grouping window). -/
structure KPeriod where
  start : String
  stop : String
deriving DecidableEq, Repr

/-- `SavingsByDate`: one aggregation bucket. -/
structure SavingsByDate where
  start : String
  stop : String
  amount : ℚ
  profits : ℚ
  tax_benefit : ℚ
deriving DecidableEq, Repr

/-! ### Temporal rule engine (`app/core/temporal.py`) -/

/-- The `matching_q` list built by `apply_temporal_rules`: every Q period
whose two bounds parse and whose range contains the transaction date,
paired with its original list position and its parsed start.  The index
argument mirrors `enumerate`. -/
def matchingQAux (d : DateTime) : Nat → List QPeriod → List (QPeriod × Nat × DateTime)
  | _, [] => []
  | i, q :: rest =>
    match parse_date q.start, parse_date q.stop with
    | some s, some e =>
      if s.key ≤ d.key ∧ d.key ≤ e.key then (q, i, s) :: matchingQAux d (i + 1) rest
      else matchingQAux d (i + 1) rest
    | _, _ => matchingQAux d (i + 1) rest

def matchingQ (qs : List QPeriod) (d : DateTime) : List (QPeriod × Nat × DateTime) :=
  matchingQAux d 0 qs

/-- The comparison realised by `matching_q.sort(key=lambda x: (x[2], -x[1]),
reverse=True)`: `a` sorts no later than `b` iff `a`'s start is later, or
the starts are equal and `a`'s original index is no larger. -/
def qOrder (a b : QPeriod × Nat × DateTime) : Prop :=
  b.2.2.key < a.2.2.key ∨ (a.2.2.key = b.2.2.key ∧ a.2.1 ≤ b.2.1)

instance : DecidableRel qOrder := fun a b => by
  unfold qOrder; infer_instance

instance : IsTotal (QPeriod × Nat × DateTime) qOrder where
  total a b := by
    unfold qOrder
    rcases lt_trichotomy a.2.2.key b.2.2.key with h | h | h
    · exact Or.inr (Or.inl h)
    · rcases Nat.le_total a.2.1 b.2.1 with h' | h'
      · exact Or.inl (Or.inr ⟨h, h'⟩)
      · exact Or.inr (Or.inr ⟨h.symm, h'⟩)
    · exact Or.inl (Or.inl h)

instance : IsTrans (QPeriod × Nat × DateTime) qOrder where
  trans a b c hab hbc := by
    unfold qOrder at *
    rcases hab with h1 | ⟨h1, h1'⟩ <;> rcases hbc with h2 | ⟨h2, h2'⟩
    · exact Or.inl (h2.trans h1)
    · exact Or.inl (h2 ▸ h1)
    · exact Or.inl (h1 ▸ h2)
    · exact Or.inr ⟨h1.trans h2, h1'.trans h2'⟩

/-- The Q stage of `apply_temporal_rules`: sort the matching list by
`(start, -index)` descending and take the winner's `fixed`; with no match
the remanent is returned unchanged. -/
def applyQ (qs : List QPeriod) (d : DateTime) (remanent : ℚ) : ℚ :=
  match (List.insertionSort qOrder (matchingQ qs d)).head? with
  | some w => w.1.fixed
  | none => remanent

/-- The P stage of `apply_temporal_rules`: fold accumulating `extra` over
every P period whose parsed range contains the date. -/
def pExtraSum (ps : List PPeriod) (d : DateTime) : ℚ :=
  ps.foldl
    (fun acc p =>
      match parse_date p.start, parse_date p.stop with
      | some s, some e => if s.key ≤ d.key ∧ d.key ≤ e.key then acc + p.extra else acc
      | _, _ => acc)
    0

/-- `apply_temporal_rules` from `app/core/temporal.py`.  K periods are
received but not used here, as in the source. -/
def apply_temporal_rules (t : Transaction) (q_periods : List QPeriod)
    (p_periods : List PPeriod) (_k_periods : List KPeriod) :
    Option Transaction × Option String :=
  match parse_date t.date with
  | none => (none, some "Invalid date format")
  | some d =>
    let r := applyQ q_periods d t.remanent
    (some { t with remanent := r + pExtraSum p_periods d }, none)

/-- `is_in_k_period` from `app/core/temporal.py`. -/
def is_in_k_period (t_date : DateTime) (k : KPeriod) : Bool :=
  match parse_date k.start, parse_date k.stop with
  | some s, some e => decide (s.key ≤ t_date.key ∧ t_date.key ≤ e.key)
  | _, _ => false

/-! ### Financial core (`app/core/financial.py`) -/

def NPS_RATE : ℚ := 711 / 10000

def INDEX_RATE : ℚ := 1449 / 10000

/-- `calculate_time`. -/
def calculate_time (age : ℤ) : ℤ :=
  if age < 60 then 60 - age else 5

/-- `calculate_compound_interest`: `P * (1+r)^t`. -/
def calculate_compound_interest (principal rate : ℚ) (t : ℤ) : ℚ :=
  principal * (1 + rate) ^ t

/-- `calculate_inflation_adjustment`: `A / (1+inflation)^t`. -/
def calculate_inflation_adjustment (amount inflation : ℚ) (t : ℤ) : ℚ :=
  amount / (1 + inflation) ^ t

/-- `calculate_tax`: the sequential slab computation from the source,
with the running `(tax, income)` pair made explicit. -/
def calculate_tax (income : ℚ) : ℚ :=
  let s0 : ℚ × ℚ := (0, income)
  let s1 := if s0.2 > 1500000 then (s0.1 + (s0.2 - 1500000) * (30 / 100), (1500000 : ℚ)) else s0
  let s2 := if s1.2 > 1200000 then (s1.1 + (s1.2 - 1200000) * (20 / 100), (1200000 : ℚ)) else s1
  let s3 := if s2.2 > 1000000 then (s2.1 + (s2.2 - 1000000) * (15 / 100), (1000000 : ℚ)) else s2
  let s4 := if s3.2 > 700000 then s3.1 + (s3.2 - 700000) * (10 / 100) else s3.1
  s4

/-- `calculate_tax_benefit`. -/
def calculate_tax_benefit (amount_invested annual_wage : ℚ) : ℚ :=
  let nps_deduction := min (min amount_invested (annual_wage * (10 / 100))) 200000
  let tax_no_deduction := calculate_tax annual_wage
  let tax_with_deduction := calculate_tax (max 0 (annual_wage - nps_deduction))
  tax_no_deduction - tax_with_deduction

/-- `group_savings_by_k`. -/
def group_savings_by_k (transactions : List Transaction) (k_periods : List KPeriod) :
    List SavingsByDate :=
  k_periods.map fun k =>
    { start := k.start
      stop := k.stop
      amount :=
        transactions.foldl
          (fun acc t =>
            match parse_date t.date with
            | some d => if is_in_k_period d k then acc + t.remanent else acc
            | none => acc)
          0
      profits := 0
      tax_benefit := 0 }

/-! ### Transaction derivation and validation (`app/api/transactions.py`,
`app/api/orchestrator.py`) -/

/-- The loop body shared by `parse_transactions` and `_parse`: derive the
ceiling and remanent of one expense. -/
def parse_expense (exp : Expense) : Transaction :=
  if exp.amount = 0 then
    { date := exp.date, amount := exp.amount, ceiling := 0, remanent := 0 }
  else
    let base : ℚ := (⌊exp.amount / 100⌋ : ℤ) * 100
    { date := exp.date, amount := exp.amount, ceiling := base + 100
      remanent := base + 100 - exp.amount }

/-- `parse_transactions` from `app/api/transactions.py`. -/
def parse_transactions (expenses : List Expense) : List Transaction :=
  expenses.map parse_expense

/-- `_parse` from `app/api/orchestrator.py` (same body). -/
def orchestrator_parse (expenses : List Expense) : List Transaction :=
  expenses.map parse_expense

def mkInvalid (t : Transaction) (msg : String) : InvalidTransaction :=
  { date := t.date, amount := t.amount, ceiling := t.ceiling
    remanent := t.remanent, message := msg }

/-- The validator loop, parameterised by the negative-amount message
(the only difference between `validate_transactions` and `_validate`);
`seen` models the `seen_dates` set. -/
def validate_go (negMsg : String) (seen : List String) :
    List Transaction → List Transaction × List InvalidTransaction
  | [] => ([], [])
  | t :: rest =>
    if t.amount < 0 then
      let r := validate_go negMsg seen rest
      (r.1, mkInvalid t negMsg :: r.2)
    else if t.amount ≥ 500000 then
      let r := validate_go negMsg seen rest
      (r.1, mkInvalid t "Exceeds max limit" :: r.2)
    else if t.date ∈ seen then
      let r := validate_go negMsg seen rest
      (r.1, mkInvalid t "Duplicate date" :: r.2)
    else
      let r := validate_go negMsg (t.date :: seen) rest
      (t :: r.1, r.2)

/-- `validate_transactions` from `app/api/transactions.py`. -/
def validate_transactions (transactions : List Transaction) :
    List Transaction × List InvalidTransaction :=
  validate_go "Negative amnt not allowed" [] transactions

/-- `_validate` from `app/api/orchestrator.py`. -/
def orchestrator_validate (transactions : List Transaction) :
    List Transaction × List InvalidTransaction :=
  validate_go "Negative amount" [] transactions

/-! ### Returns projection (`app/api/returns.py`) -/

structure ReturnsRequest where
  age : ℤ
  wage : ℚ
  inflation : ℚ
  q : List QPeriod
  p : List PPeriod
  k : List KPeriod
  transactions : List Transaction

structure ReturnsResponse where
  transactions_total_amount : ℚ
  transactions_total_ceiling : ℚ
  savings_by_dates : List SavingsByDate
deriving DecidableEq, Repr

/-- Rounding to two decimal places, as `round(x, 2)` does on the values
produced here. -/
def round2 (q : ℚ) : ℚ := (round (q * 100) : ℤ) / 100

/-- The filtering loop of `process_returns`: keep the updated transaction
when `apply_temporal_rules` reports no error. -/
def filtered_transactions (req : ReturnsRequest) : List Transaction :=
  req.transactions.filterMap fun t =>
    match apply_temporal_rules t req.q req.p req.k with
    | (some u, none) => some u
    | _ => none

/-- The body of the bucket loop in `process_returns`: fill `profits`
(and, for NPS, `tax_benefit`) of one bucket with positive amount. -/
def process_returns_bucket (is_nps : Bool) (age : ℤ) (wage inflation : ℚ)
    (s : SavingsByDate) : SavingsByDate :=
  let t_years := calculate_time age
  let annual_wage := wage * 12
  if s.amount > 0 then
    let rate := if is_nps then NPS_RATE else INDEX_RATE
    let future_value := calculate_compound_interest s.amount rate t_years
    let real_fv := calculate_inflation_adjustment future_value inflation t_years
    let s1 := { s with profits := round2 (real_fv - s.amount) }
    if is_nps then
      { s1 with tax_benefit := round2 (calculate_tax_benefit s.amount annual_wage) }
    else s1
  else s

/-- `process_returns` from `app/api/returns.py`. -/
def process_returns (req : ReturnsRequest) (is_nps : Bool) : ReturnsResponse :=
  let fts := filtered_transactions req
  { transactions_total_amount := round2 ((fts.map Transaction.amount).sum)
    transactions_total_ceiling := round2 ((fts.map Transaction.ceiling).sum)
    savings_by_dates :=
      (group_savings_by_k fts req.k).map
        (process_returns_bucket is_nps req.age req.wage req.inflation) }

/-! ### Spec-side characterisations and helper lemmas -/

/-- The contribution of one P period to a date, per the spec: its `extra`
when the (parsed) range contains the date, else 0. -/
def pContribOf (d : DateTime) (p : PPeriod) : ℚ :=
  match parse_date p.start, parse_date p.stop with
  | some s, some e => if s.key ≤ d.key ∧ d.key ≤ e.key then p.extra else 0
  | _, _ => 0

theorem pExtraSum_foldl_eq (d : DateTime) :
    ∀ (ps : List PPeriod) (acc : ℚ),
      ps.foldl
        (fun acc p =>
          match parse_date p.start, parse_date p.stop with
          | some s, some e => if s.key ≤ d.key ∧ d.key ≤ e.key then acc + p.extra else acc
          | _, _ => acc)
        acc = acc + (ps.map (pContribOf d)).sum
  | [], acc => by simp
  | p :: ps, acc => by
    simp only [List.foldl_cons, List.map_cons, List.sum_cons, pContribOf]
    cases hs : parse_date p.start <;> cases he : parse_date p.stop <;>
      simp only [pExtraSum_foldl_eq d ps]
    · ring
    · ring
    · ring
    · split
      · ring
      · ring

theorem pExtraSum_eq_sum (ps : List PPeriod) (d : DateTime) :
    pExtraSum ps d = (ps.map (pContribOf d)).sum := by
  unfold pExtraSum
  rw [pExtraSum_foldl_eq d ps 0, zero_add]

theorem matchingQAux_index_ge (d : DateTime) :
    ∀ (i : Nat) (qs : List QPeriod) (x : QPeriod × Nat × DateTime),
      x ∈ matchingQAux d i qs → i ≤ x.2.1
  | i, [], x => by simp [matchingQAux]
  | i, q :: qs, x => by
    intro hx
    have step : x ∈ matchingQAux d (i + 1) qs → i ≤ x.2.1 := fun h =>
      Nat.le_of_succ_le (matchingQAux_index_ge d (i + 1) qs x h)
    unfold matchingQAux at hx
    rcases h1 : parse_date q.start with _ | s <;> rw [h1] at hx
    · exact step hx
    rcases h2 : parse_date q.stop with _ | e <;> rw [h2] at hx
    · exact step hx
    dsimp only at hx
    by_cases hc : s.key ≤ d.key ∧ d.key ≤ e.key
    · rw [if_pos hc] at hx
      rcases List.mem_cons.mp hx with h | h
      · subst h; exact Nat.le_refl i
      · exact step h
    · rw [if_neg hc] at hx
      exact step hx

theorem matchingQAux_index_pairwise (d : DateTime) :
    ∀ (i : Nat) (qs : List QPeriod),
      (matchingQAux d i qs).Pairwise (fun a b => a.2.1 ≠ b.2.1)
  | _, [] => List.Pairwise.nil
  | i, q :: qs => by
    have IH := matchingQAux_index_pairwise d (i + 1) qs
    unfold matchingQAux
    rcases parse_date q.start with _ | s
    · exact IH
    rcases parse_date q.stop with _ | e
    · exact IH
    dsimp only
    by_cases hc : s.key ≤ d.key ∧ d.key ≤ e.key
    · rw [if_pos hc]
      refine List.Pairwise.cons ?_ IH
      intro y hy
      have hg := matchingQAux_index_ge d (i + 1) qs y hy
      show i ≠ y.2.1
      omega
    · rw [if_neg hc]
      exact IH

theorem matchingQ_index_ne {qs : List QPeriod} {d : DateTime}
    {x w : QPeriod × Nat × DateTime} (hx : x ∈ matchingQ qs d)
    (hw : w ∈ matchingQ qs d) (hne : x ≠ w) : x.2.1 ≠ w.2.1 :=
  (matchingQAux_index_pairwise d 0 qs).forall
    (fun _ _ h => (h ·.symm)) hx hw hne

/-- The head of the descending `(start, -index)` insertion sort is a
maximum for `qOrder`. -/
theorem sorted_head_max (l : List (QPeriod × Nat × DateTime)) (hne : l ≠ []) :
    ∃ w, (List.insertionSort qOrder l).head? = some w ∧ w ∈ l ∧
      ∀ x ∈ l, x = w ∨ qOrder w x := by
  have hperm := List.perm_insertionSort qOrder l
  have hsorted := List.sorted_insertionSort qOrder l
  rcases hsl : List.insertionSort qOrder l with _ | ⟨w, tl⟩
  · exact absurd (hperm.symm.trans (hsl ▸ List.Perm.refl _)).eq_nil hne
  · rw [hsl] at hperm hsorted
    refine ⟨w, rfl, hperm.mem_iff.mp (List.mem_cons_self w tl), ?_⟩
    intro x hx
    rcases List.mem_cons.mp (hperm.mem_iff.mpr hx) with h | h
    · exact Or.inl h
    · exact Or.inr (List.rel_of_sorted_cons hsorted x h)

/-- The validator's per-transaction classification as the spec words it:
an ordered rule table tried in fixed priority, first match winning. -/
def spec_rule_table (negMsg : String) (seen : List String) :
    List ((Transaction → Bool) × String) :=
  [(fun u => decide (u.amount < 0), negMsg),
   (fun u => decide (500000 ≤ u.amount), "Exceeds max limit"),
   (fun u => decide (u.date ∈ seen), "Duplicate date")]

def spec_classify (negMsg : String) (seen : List String) (t : Transaction) :
    Option String :=
  ((spec_rule_table negMsg seen).find? (fun r => r.1 t)).map (fun r => r.2)

/-- The validator as the spec words it: classify each transaction by the
first matching rule; accepted transactions (no rule matches) are the only
ones whose dates enter the seen-set. -/
def spec_validate (negMsg : String) :
    List String → List Transaction → List Transaction × List InvalidTransaction
  | _, [] => ([], [])
  | seen, t :: rest =>
    match spec_classify negMsg seen t with
    | some msg =>
      let r := spec_validate negMsg seen rest
      (r.1, mkInvalid t msg :: r.2)
    | none =>
      let r := spec_validate negMsg (t.date :: seen) rest
      (t :: r.1, r.2)

theorem validate_go_eq_spec (negMsg : String) :
    ∀ (ts : List Transaction) (seen : List String),
      validate_go negMsg seen ts = spec_validate negMsg seen ts
  | [], _ => rfl
  | t :: rest, seen => by
    unfold validate_go spec_validate spec_classify spec_rule_table
    by_cases h1 : t.amount < 0
    · simp [List.find?, h1, validate_go_eq_spec negMsg rest seen]
    by_cases h2 : t.amount ≥ 500000
    · simp [List.find?, h1, h2, validate_go_eq_spec negMsg rest seen]
    by_cases h3 : t.date ∈ seen
    · simp [List.find?, h1, h2, h3, validate_go_eq_spec negMsg rest seen]
    · simp [List.find?, h1, h2, h3, validate_go_eq_spec negMsg rest (t.date :: seen)]

/-- `amount_ok t`: `t` passes the two amount rules. -/
def amount_ok (t : Transaction) : Bool :=
  decide (0 ≤ t.amount) && decide (t.amount < 500000)

/-- Spec-side characterisation of the accepted output: a transaction is
accepted exactly when its amount passes both amount rules and no earlier
transaction with the same date also passed them; `prev` carries the
already-processed prefix. -/
def first_eligible_spec : List Transaction → List Transaction → List Transaction
  | _, [] => []
  | prev, t :: rest =>
    if amount_ok t && prev.all (fun u => !(u.date == t.date && amount_ok u)) then
      t :: first_eligible_spec (prev ++ [t]) rest
    else
      first_eligible_spec (prev ++ [t]) rest

theorem amount_ok_of_neg {t : Transaction} (h : t.amount < 0) :
    amount_ok t = false := by
  unfold amount_ok
  rw [decide_eq_false (not_le.mpr h), Bool.false_and]

theorem amount_ok_of_big {t : Transaction} (h : t.amount ≥ 500000) :
    amount_ok t = false := by
  unfold amount_ok
  rw [decide_eq_false (not_lt.mpr h), Bool.and_false]

theorem amount_ok_of_mid {t : Transaction} (h1 : ¬ t.amount < 0)
    (h2 : ¬ t.amount ≥ 500000) : amount_ok t = true := by
  unfold amount_ok
  rw [decide_eq_true (not_lt.mp h1), decide_eq_true (not_le.mp h2), Bool.and_self]

theorem validate_go_valid_eq_first_eligible (negMsg : String) :
    ∀ (ts : List Transaction) (seen : List String) (prev : List Transaction),
      (∀ s : String, s ∈ seen ↔ ∃ u ∈ prev, u.date = s ∧ amount_ok u = true) →
      (validate_go negMsg seen ts).1 = first_eligible_spec prev ts
  | [], _, _, _ => rfl
  | t :: rest, seen, prev, hinv => by
    unfold validate_go first_eligible_spec
    by_cases h1 : t.amount < 0
    · rw [if_pos h1, amount_ok_of_neg h1, Bool.false_and, if_neg (by simp)]
      refine validate_go_valid_eq_first_eligible negMsg rest seen (prev ++ [t]) ?_
      intro s
      rw [hinv s]
      constructor
      · rintro ⟨u, hu, hus, huok⟩
        exact ⟨u, List.mem_append_left _ hu, hus, huok⟩
      · rintro ⟨u, hu, hus, huok⟩
        rcases List.mem_append.mp hu with hu | hu
        · exact ⟨u, hu, hus, huok⟩
        · rcases List.mem_singleton.mp hu with rfl
          rw [amount_ok_of_neg h1] at huok
          exact absurd huok (by simp)
    rw [if_neg h1]
    by_cases h2 : t.amount ≥ 500000
    · rw [if_pos h2, amount_ok_of_big h2, Bool.false_and, if_neg (by simp)]
      refine validate_go_valid_eq_first_eligible negMsg rest seen (prev ++ [t]) ?_
      intro s
      rw [hinv s]
      constructor
      · rintro ⟨u, hu, hus, huok⟩
        exact ⟨u, List.mem_append_left _ hu, hus, huok⟩
      · rintro ⟨u, hu, hus, huok⟩
        rcases List.mem_append.mp hu with hu | hu
        · exact ⟨u, hu, hus, huok⟩
        · rcases List.mem_singleton.mp hu with rfl
          rw [amount_ok_of_big h2] at huok
          exact absurd huok (by simp)
    rw [if_neg h2]
    have hok := amount_ok_of_mid h1 h2
    by_cases h3 : t.date ∈ seen
    · rw [if_pos h3]
      have hall : prev.all (fun u => !(u.date == t.date && amount_ok u)) = false := by
        obtain ⟨u, hu, hud, huok⟩ := (hinv t.date).mp h3
        cases hall : prev.all (fun u => !(u.date == t.date && amount_ok u)) with
        | false => rfl
        | true =>
          have := List.all_eq_true.mp hall u hu
          rw [hud, huok] at this
          simp at this
      rw [hall, Bool.and_false, if_neg (by simp)]
      refine validate_go_valid_eq_first_eligible negMsg rest seen (prev ++ [t]) ?_
      intro s
      rw [hinv s]
      constructor
      · rintro ⟨u, hu, hus, huok⟩
        exact ⟨u, List.mem_append_left _ hu, hus, huok⟩
      · rintro ⟨u, hu, hus, huok⟩
        rcases List.mem_append.mp hu with hu | hu
        · exact ⟨u, hu, hus, huok⟩
        · rcases List.mem_singleton.mp hu with rfl
          exact (hinv s).mp (hus ▸ h3)
    · rw [if_neg h3]
      have hall : prev.all (fun u => !(u.date == t.date && amount_ok u)) = true := by
        refine List.all_eq_true.mpr ?_
        intro u hu
        cases hcond : (u.date == t.date && amount_ok u) with
        | false => simp
        | true =>
          obtain ⟨hud, huok⟩ := Bool.and_eq_true_iff.mp hcond
          exact absurd ((hinv t.date).mpr ⟨u, hu, eq_of_beq hud, huok⟩) h3
      rw [hok, hall, Bool.and_self, if_pos rfl]
      have htail := validate_go_valid_eq_first_eligible negMsg rest (t.date :: seen)
        (prev ++ [t]) ?_
      · exact congrArg (t :: ·) htail
      · intro s
        constructor
        · intro hs
          rcases List.mem_cons.mp hs with rfl | hs
          · exact ⟨t, List.mem_append_right _ (List.mem_singleton_self t), rfl, hok⟩
          · obtain ⟨u, hu, hus, huok⟩ := (hinv s).mp hs
            exact ⟨u, List.mem_append_left _ hu, hus, huok⟩
        · rintro ⟨u, hu, hus, huok⟩
          rcases List.mem_append.mp hu with hu | hu
          · exact List.mem_cons_of_mem _ ((hinv s).mpr ⟨u, hu, hus, huok⟩)
          · rcases List.mem_singleton.mp hu with rfl
            exact hus ▸ List.mem_cons_self _ _

theorem first_eligible_spec_mem :
    ∀ (ts prev : List Transaction) (u : Transaction),
      u ∈ first_eligible_spec prev ts →
      amount_ok u = true ∧ ∀ w ∈ prev, ¬(w.date = u.date ∧ amount_ok w = true)
  | [], _, u => by simp [first_eligible_spec]
  | t :: rest, prev, u => by
    intro hu
    unfold first_eligible_spec at hu
    split at hu
    · next hc =>
      obtain ⟨hcok, hcall⟩ := Bool.and_eq_true_iff.mp hc
      rcases List.mem_cons.mp hu with rfl | hu
      · refine ⟨hcok, ?_⟩
        intro w hw ⟨hwd, hwok⟩
        have := List.all_eq_true.mp hcall w hw
        rw [hwd, hwok] at this
        simp at this
      · obtain ⟨huok, hall⟩ := first_eligible_spec_mem rest (prev ++ [t]) u hu
        exact ⟨huok, fun w hw => hall w (List.mem_append_left _ hw)⟩
    · obtain ⟨huok, hall⟩ := first_eligible_spec_mem rest (prev ++ [t]) u hu
      exact ⟨huok, fun w hw => hall w (List.mem_append_left _ hw)⟩

theorem first_eligible_spec_pairwise :
    ∀ (ts prev : List Transaction),
      (first_eligible_spec prev ts).Pairwise (fun a b => a.date ≠ b.date)
  | [], _ => List.Pairwise.nil
  | t :: rest, prev => by
    unfold first_eligible_spec
    split
    · next hc =>
      obtain ⟨hcok, -⟩ := Bool.and_eq_true_iff.mp hc
      refine List.Pairwise.cons ?_ (first_eligible_spec_pairwise rest (prev ++ [t]))
      intro u hu hdate
      obtain ⟨-, hall⟩ := first_eligible_spec_mem rest (prev ++ [t]) u hu
      exact hall t (List.mem_append_right _ (List.mem_singleton_self t)) ⟨hdate, hcok⟩
    · exact first_eligible_spec_pairwise rest (prev ++ [t])

/-- The contribution of one transaction to a K bucket, per the spec: its
remanent when its date parses and lies within the period's inclusive
bounds, else 0. -/
def kContribOf (k : KPeriod) (t : Transaction) : ℚ :=
  match parse_date t.date with
  | some d => if is_in_k_period d k then t.remanent else 0
  | none => 0

theorem group_foldl_eq (k : KPeriod) :
    ∀ (ts : List Transaction) (acc : ℚ),
      ts.foldl
        (fun acc t =>
          match parse_date t.date with
          | some d => if is_in_k_period d k then acc + t.remanent else acc
          | none => acc)
        acc = acc + (ts.map (kContribOf k)).sum
  | [], acc => by simp
  | t :: ts, acc => by
    simp only [List.foldl_cons, List.map_cons, List.sum_cons, kContribOf]
    cases parse_date t.date <;> simp only [group_foldl_eq k ts]
    · ring
    · split
      · ring
      · ring

/-- `group_savings_by_k` written as a map of per-period spec sums. -/
theorem group_savings_eq_map (ts : List Transaction) (ks : List KPeriod) :
    group_savings_by_k ts ks = ks.map fun k =>
      { start := k.start, stop := k.stop, amount := (ts.map (kContribOf k)).sum
        profits := 0, tax_benefit := 0 } := by
  unfold group_savings_by_k
  refine List.map_congr_left ?_
  intro k _
  rw [group_foldl_eq k ts 0, zero_add]

/-- The four-bracket marginal tax schedule as the spec words it: 0% at
or below 700000, then 10%, 15%, 20% and 30% on the successive bands. -/
def tax_bracket_spec (income : ℚ) : ℚ :=
  (10 / 100) * max 0 (min income 1000000 - 700000) +
    (15 / 100) * max 0 (min income 1200000 - 1000000) +
    (20 / 100) * max 0 (min income 1500000 - 1200000) +
    (30 / 100) * max 0 (income - 1500000)

theorem calculate_tax_eq_bracket_spec (x : ℚ) :
    calculate_tax x = tax_bracket_spec x := by
  unfold calculate_tax tax_bracket_spec
  dsimp only
  rcases le_or_lt x 700000 with h1 | h1
  · rw [if_neg (show ¬ x > 1500000 by linarith)]
    dsimp only
    rw [if_neg (show ¬ x > 1200000 by linarith)]
    dsimp only
    rw [if_neg (show ¬ x > 1000000 by linarith)]
    dsimp only
    rw [if_neg (show ¬ x > 700000 by linarith)]
    rw [min_eq_left (show x ≤ 1000000 by linarith),
      min_eq_left (show x ≤ 1200000 by linarith),
      min_eq_left (show x ≤ 1500000 by linarith),
      max_eq_left (show x - 700000 ≤ 0 by linarith),
      max_eq_left (show x - 1000000 ≤ 0 by linarith),
      max_eq_left (show x - 1200000 ≤ 0 by linarith),
      max_eq_left (show x - 1500000 ≤ 0 by linarith)]
    ring
  rcases le_or_lt x 1000000 with h2 | h2
  · rw [if_neg (show ¬ x > 1500000 by linarith)]
    dsimp only
    rw [if_neg (show ¬ x > 1200000 by linarith)]
    dsimp only
    rw [if_neg (show ¬ x > 1000000 by linarith)]
    dsimp only
    rw [if_pos (show x > 700000 by linarith)]
    rw [min_eq_left (show x ≤ 1000000 by linarith),
      min_eq_left (show x ≤ 1200000 by linarith),
      min_eq_left (show x ≤ 1500000 by linarith),
      max_eq_right (show 0 ≤ x - 700000 by linarith),
      max_eq_left (show x - 1000000 ≤ 0 by linarith),
      max_eq_left (show x - 1200000 ≤ 0 by linarith),
      max_eq_left (show x - 1500000 ≤ 0 by linarith)]
    ring
  rcases le_or_lt x 1200000 with h3 | h3
  · rw [if_neg (show ¬ x > 1500000 by linarith)]
    dsimp only
    rw [if_neg (show ¬ x > 1200000 by linarith)]
    dsimp only
    rw [if_pos (show x > 1000000 by linarith)]
    dsimp only
    rw [if_pos (show (1000000 : ℚ) > 700000 by norm_num)]
    rw [min_eq_right (show (1000000 : ℚ) ≤ x by linarith),
      min_eq_left (show x ≤ 1200000 by linarith),
      min_eq_left (show x ≤ 1500000 by linarith),
      max_eq_right (show (0 : ℚ) ≤ 1000000 - 700000 by norm_num),
      max_eq_right (show 0 ≤ x - 1000000 by linarith),
      max_eq_left (show x - 1200000 ≤ 0 by linarith),
      max_eq_left (show x - 1500000 ≤ 0 by linarith)]
    ring
  rcases le_or_lt x 1500000 with h4 | h4
  · rw [if_neg (show ¬ x > 1500000 by linarith)]
    dsimp only
    rw [if_pos (show x > 1200000 by linarith)]
    dsimp only
    rw [if_pos (show (1200000 : ℚ) > 1000000 by norm_num)]
    dsimp only
    rw [if_pos (show (1000000 : ℚ) > 700000 by norm_num)]
    rw [min_eq_right (show (1000000 : ℚ) ≤ x by linarith),
      min_eq_right (show (1200000 : ℚ) ≤ x by linarith),
      min_eq_left (show x ≤ 1500000 by linarith),
      max_eq_right (show (0 : ℚ) ≤ 1000000 - 700000 by norm_num),
      max_eq_right (show (0 : ℚ) ≤ 1200000 - 1000000 by norm_num),
      max_eq_right (show 0 ≤ x - 1200000 by linarith),
      max_eq_left (show x - 1500000 ≤ 0 by linarith)]
    ring
  · rw [if_pos (show x > 1500000 by linarith)]
    dsimp only
    rw [if_pos (show (1500000 : ℚ) > 1200000 by norm_num)]
    dsimp only
    rw [if_pos (show (1200000 : ℚ) > 1000000 by norm_num)]
    dsimp only
    rw [if_pos (show (1000000 : ℚ) > 700000 by norm_num)]
    rw [min_eq_right (show (1000000 : ℚ) ≤ x by linarith),
      min_eq_right (show (1200000 : ℚ) ≤ x by linarith),
      min_eq_right (show (1500000 : ℚ) ≤ x by linarith),
      max_eq_right (show (0 : ℚ) ≤ 1000000 - 700000 by norm_num),
      max_eq_right (show (0 : ℚ) ≤ 1200000 - 1000000 by norm_num),
      max_eq_right (show (0 : ℚ) ≤ 1500000 - 1200000 by norm_num),
      max_eq_right (show 0 ≤ x - 1500000 by linarith)]
    ring

theorem calculate_tax_max_zero (x : ℚ) :
    calculate_tax (max 0 x) = calculate_tax x := by
  rcases le_or_lt 0 x with h | h
  · rw [max_eq_right h]
  · rw [max_eq_left (le_of_lt h), calculate_tax_eq_bracket_spec,
      calculate_tax_eq_bracket_spec]
    have h0 : tax_bracket_spec 0 = 0 := by
      unfold tax_bracket_spec
      norm_num
    have hx : tax_bracket_spec x = 0 := by
      unfold tax_bracket_spec
      rw [min_eq_left (show x ≤ 1000000 by linarith),
        min_eq_left (show x ≤ 1200000 by linarith),
        min_eq_left (show x ≤ 1500000 by linarith),
        max_eq_left (show x - 700000 ≤ 0 by linarith),
        max_eq_left (show x - 1000000 ≤ 0 by linarith),
        max_eq_left (show x - 1200000 ≤ 0 by linarith),
        max_eq_left (show x - 1500000 ≤ 0 by linarith)]
      ring
    rw [h0, hx]

theorem matchingQAux_parses (d : DateTime) :
    ∀ (i : Nat) (qs : List QPeriod) (x : QPeriod × Nat × DateTime),
      x ∈ matchingQAux d i qs →
      parse_date x.1.start = some x.2.2 ∧ ∃ e, parse_date x.1.stop = some e
  | i, [], x => by simp [matchingQAux]
  | i, q :: qs, x => by
    intro hx
    have step := matchingQAux_parses d (i + 1) qs x
    unfold matchingQAux at hx
    rcases h1 : parse_date q.start with _ | s <;> rw [h1] at hx
    · exact step hx
    rcases h2 : parse_date q.stop with _ | e <;> rw [h2] at hx
    · exact step hx
    dsimp only at hx
    by_cases hc : s.key ≤ d.key ∧ d.key ≤ e.key
    · rw [if_pos hc] at hx
      rcases List.mem_cons.mp hx with rfl | h
      · exact ⟨h1, e, h2⟩
      · exact step h
    · rw [if_neg hc] at hx
      exact step hx

/-! ### Theorems -/

/-- **C1.** For a parsable transaction date, `apply_temporal_rules` sets
the remanent to the Q-stage result plus the P total; the Q stage leaves
the remanent untouched when no Q period contains the date, and otherwise
replaces it by the `fixed` of the unique winner: every other matching Q
period either has a strictly earlier `start`, or the same `start` and a
strictly larger original list position (so `end` plays no role). -/
theorem claim_C1_q_winner (t : Transaction) (qs : List QPeriod)
    (ps : List PPeriod) (ks : List KPeriod) (r : ℚ) (d : DateTime)
    (hd : parse_date t.date = some d) :
    (apply_temporal_rules t qs ps ks).1
        = some { t with remanent := applyQ qs d t.remanent + pExtraSum ps d } ∧
    (matchingQ qs d = [] → applyQ qs d r = r) ∧
    (matchingQ qs d ≠ [] →
      ∃ w ∈ matchingQ qs d, applyQ qs d r = w.1.fixed ∧
        ∀ x ∈ matchingQ qs d, x ≠ w →
          x.2.2.key < w.2.2.key ∨ (x.2.2.key = w.2.2.key ∧ w.2.1 < x.2.1)) := by
  refine ⟨?_, ?_, ?_⟩
  · unfold apply_temporal_rules
    rw [hd]
  · intro h
    simp [applyQ, h]
  · intro h
    obtain ⟨w, hhead, hmem, hmax⟩ := sorted_head_max (matchingQ qs d) h
    refine ⟨w, hmem, ?_, ?_⟩
    · unfold applyQ
      rw [hhead]
    · intro x hx hne
      rcases hmax x hx with h' | h'
      · exact absurd h' hne
      · rcases h' with h' | ⟨hkey, hle⟩
        · exact Or.inl h'
        · have : w.2.1 ≠ x.2.1 :=
            fun he => matchingQ_index_ne hx hmem hne (he ▸ rfl)
          exact Or.inr ⟨hkey.symm, lt_of_le_of_ne hle this⟩

theorem claim_C1_witness :
    applyQ [] ⟨2023, 1, 5, 0, 0, 0⟩ 5 = 5 :=
  (claim_C1_q_winner ⟨"2023-01-05 00:00:00", 250, 300, 50⟩ [] [] [] 5
    ⟨2023, 1, 5, 0, 0, 0⟩ (by decide)).2.1 (by decide)

/-- **C3.** For a parsable date the final remanent is a base value plus
the sum of `extra` over every P period containing the date (all
overlapping P extras are additive, applied after the Q stage); the base
is the original remanent when no Q period matches, and some matching Q
period's `fixed` otherwise. -/
theorem claim_C3_p_additive (t : Transaction) (qs : List QPeriod)
    (ps : List PPeriod) (ks : List KPeriod) (d : DateTime)
    (hd : parse_date t.date = some d) :
    ∃ base,
      (apply_temporal_rules t qs ps ks).1
          = some { t with remanent := base + (ps.map (pContribOf d)).sum } ∧
      (matchingQ qs d = [] → base = t.remanent) ∧
      (matchingQ qs d ≠ [] → ∃ x ∈ matchingQ qs d, base = x.1.fixed) := by
  refine ⟨applyQ qs d t.remanent, ?_, ?_, ?_⟩
  · unfold apply_temporal_rules
    rw [hd]
    dsimp only
    rw [pExtraSum_eq_sum]
  · intro h
    simp [applyQ, h]
  · intro h
    obtain ⟨w, hhead, hmem, -⟩ := sorted_head_max (matchingQ qs d) h
    refine ⟨w, hmem, ?_⟩
    unfold applyQ
    rw [hhead]

theorem claim_C3_witness :
    ∃ base,
      (apply_temporal_rules ⟨"2023-01-05 00:00:00", 250, 300, 50⟩ []
          [⟨10, "2023-01-01 00:00:00", "2023-01-10 00:00:00"⟩,
           ⟨20, "2023-01-01 00:00:00", "2023-01-10 00:00:00"⟩,
           ⟨30, "2023-01-01 00:00:00", "2023-01-10 00:00:00"⟩] []).1
        = some { date := "2023-01-05 00:00:00", amount := 250, ceiling := 300
                 remanent := base +
                   (([⟨10, "2023-01-01 00:00:00", "2023-01-10 00:00:00"⟩,
                      ⟨20, "2023-01-01 00:00:00", "2023-01-10 00:00:00"⟩,
                      ⟨30, "2023-01-01 00:00:00", "2023-01-10 00:00:00"⟩] :
                        List PPeriod).map (pContribOf ⟨2023, 1, 5, 0, 0, 0⟩)).sum } ∧
      (matchingQ [] ⟨2023, 1, 5, 0, 0, 0⟩ = [] → base = 50) ∧
      (matchingQ [] ⟨2023, 1, 5, 0, 0, 0⟩ ≠ [] →
        ∃ x ∈ matchingQ [] ⟨2023, 1, 5, 0, 0, 0⟩, base = x.1.fixed) :=
  claim_C3_p_additive ⟨"2023-01-05 00:00:00", 250, 300, 50⟩ []
    [⟨10, "2023-01-01 00:00:00", "2023-01-10 00:00:00"⟩,
     ⟨20, "2023-01-01 00:00:00", "2023-01-10 00:00:00"⟩,
     ⟨30, "2023-01-01 00:00:00", "2023-01-10 00:00:00"⟩] []
    ⟨2023, 1, 5, 0, 0, 0⟩ (by decide)

/-- **C2 counterexample.** The claim's reason string `"Negative amount"`
is not the one `validate_transactions` (the `/transactions:validator`
endpoint) produces for a negative amount: that endpoint says
`"Negative amnt not allowed"`. -/
theorem claim_C2_counterexample :
    (validate_transactions [⟨"2023-01-05 00:00:00", -1, 0, 101⟩]).2.map
        InvalidTransaction.message = ["Negative amnt not allowed"] ∧
    (validate_transactions [⟨"2023-01-05 00:00:00", -1, 0, 101⟩]).2.map
        InvalidTransaction.message ≠ ["Negative amount"] := by
  constructor
  · decide
  · decide

/-- **C2 (amended).** Both validators check the three rules in fixed
priority with first match winning — negative amount, then amount ≥
500000 (`"Exceeds max limit"`), then an already-seen date
(`"Duplicate date"`) — and accept everything matching no rule; the
negative-amount reason is `"Negative amount"` in the orchestrator's
`_validate` but `"Negative amnt not allowed"` in
`validate_transactions`. -/
theorem claim_C2_validator_rules_amended (ts : List Transaction) :
    orchestrator_validate ts = spec_validate "Negative amount" [] ts ∧
    validate_transactions ts = spec_validate "Negative amnt not allowed" [] ts :=
  ⟨validate_go_eq_spec "Negative amount" ts [],
   validate_go_eq_spec "Negative amnt not allowed" ts []⟩

/-- **C6.** In one validator call (either validator), the accepted list
is exactly the transactions whose amount passes both amount rules and
that are the first such occurrence of their date, so no two accepted
transactions share a date, and a date whose earlier occurrences were all
rejected for amount reasons stays eligible. -/
theorem claim_C6_duplicate_dates (ts : List Transaction) :
    (orchestrator_validate ts).1 = first_eligible_spec [] ts ∧
    (validate_transactions ts).1 = first_eligible_spec [] ts ∧
    (orchestrator_validate ts).1.Pairwise (fun a b => a.date ≠ b.date) ∧
    (validate_transactions ts).1.Pairwise (fun a b => a.date ≠ b.date) := by
  have hbase : ∀ s : String, s ∈ ([] : List String) ↔
      ∃ u ∈ ([] : List Transaction), u.date = s ∧ amount_ok u = true := by
    simp
  have h1 := validate_go_valid_eq_first_eligible "Negative amount" ts [] [] hbase
  have h2 := validate_go_valid_eq_first_eligible "Negative amnt not allowed" ts [] [] hbase
  refine ⟨h1, h2, ?_, ?_⟩
  · rw [show (orchestrator_validate ts).1 = first_eligible_spec [] ts from h1]
    exact first_eligible_spec_pairwise ts []
  · rw [show (validate_transactions ts).1 = first_eligible_spec [] ts from h2]
    exact first_eligible_spec_pairwise ts []

/-- **C4.** `apply_temporal_rules` fails exactly on an unparsable
transaction date: it then returns no transaction and the error
`"Invalid date format"`, and for every parsable date it returns an
updated transaction and no error, whatever the period lists are. -/
theorem claim_C4_temporal_failure_iff_bad_date (t : Transaction)
    (qs : List QPeriod) (ps : List PPeriod) (ks : List KPeriod) :
    (parse_date t.date = none →
      apply_temporal_rules t qs ps ks = (none, some "Invalid date format")) ∧
    (∀ d, parse_date t.date = some d →
      ∃ u, apply_temporal_rules t qs ps ks = (some u, none)) := by
  constructor
  · intro h
    unfold apply_temporal_rules
    rw [h]
  · intro d h
    unfold apply_temporal_rules
    rw [h]
    exact ⟨_, rfl⟩

theorem claim_C4_witness :
    apply_temporal_rules ⟨"nonsense", 1, 100, 99⟩ [] [] []
      = (none, some "Invalid date format") :=
  (claim_C4_temporal_failure_iff_bad_date ⟨"nonsense", 1, 100, 99⟩ [] [] []).1 (by decide)

/-- **C5.** Transaction derivation: zero amount yields zero ceiling and
remanent; otherwise `ceiling = ⌊amount/100⌋*100 + 100` and
`remanent = ceiling - amount`; hence every positive amount has
`ceiling > amount` and `0 < remanent ≤ 100`, and a positive amount
divisible by 100 gets remanent exactly 100.  Both endpoints' derivation
maps are the same per-expense function. -/
theorem claim_C5_derivation (e : Expense) :
    (e.amount = 0 → (parse_expense e).ceiling = 0 ∧ (parse_expense e).remanent = 0) ∧
    (e.amount ≠ 0 →
      (parse_expense e).ceiling = (⌊e.amount / 100⌋ : ℚ) * 100 + 100 ∧
      (parse_expense e).remanent = (parse_expense e).ceiling - e.amount) ∧
    (0 < e.amount →
      e.amount < (parse_expense e).ceiling ∧
      0 < (parse_expense e).remanent ∧ (parse_expense e).remanent ≤ 100) ∧
    (0 < e.amount → (∃ k : ℤ, e.amount = k * 100) → (parse_expense e).remanent = 100) ∧
    (∀ es, parse_transactions es = es.map parse_expense ∧
      orchestrator_parse es = es.map parse_expense) := by
  refine ⟨?_, ?_, ?_, ?_, fun es => ⟨rfl, rfl⟩⟩
  · intro h
    simp [parse_expense, h]
  · intro h
    simp [parse_expense, h]
  · intro h
    have hne : e.amount ≠ 0 := ne_of_gt h
    have h1 : ((⌊e.amount / 100⌋ : ℤ) : ℚ) ≤ e.amount / 100 := Int.floor_le _
    have h2 : e.amount / 100 < (⌊e.amount / 100⌋ : ℤ) + 1 := Int.lt_floor_add_one _
    simp only [parse_expense, if_neg hne]
    refine ⟨by linarith, by linarith, by linarith⟩
  · intro h ⟨k, hk⟩
    have hne : e.amount ≠ 0 := ne_of_gt h
    have hfl : ⌊e.amount / 100⌋ = k := by
      rw [hk]
      rw [mul_div_assoc]
      norm_num
    simp only [parse_expense, if_neg hne, hfl]
    rw [hk]
    ring

theorem claim_C5_witness :
    (0 : ℚ) < 300 ∧ (parse_expense ⟨"2023-01-05 00:00:00", 300⟩).remanent = 100 :=
  ⟨by norm_num,
    (claim_C5_derivation ⟨"2023-01-05 00:00:00", 300⟩).2.2.2.1 (by norm_num)
      ⟨3, by norm_num⟩⟩

/-- **C7.** The aggregator returns one `SavingsByDate` per K period, in
K-list order, each bucket summing the remanents of the transactions
whose parsed date lies within the period's inclusive bounds; the result
is invariant under permutations of the transactions, a transaction dated
exactly on a bucket's (parsed) `start` or `end` contributes its
remanent, and one with an unparsable date contributes to no bucket. -/
theorem claim_C7_aggregator (ts : List Transaction) (ks : List KPeriod) :
    (group_savings_by_k ts ks = ks.map fun k =>
      { start := k.start, stop := k.stop, amount := (ts.map (kContribOf k)).sum
        profits := 0, tax_benefit := 0 }) ∧
    (∀ ts' : List Transaction, ts.Perm ts' →
      group_savings_by_k ts ks = group_savings_by_k ts' ks) ∧
    (∀ (t : Transaction) (k : KPeriod), parse_date t.date = none →
      kContribOf k t = 0) ∧
    (∀ (t : Transaction) (k : KPeriod) (d e : DateTime),
      parse_date t.date = some d → parse_date k.start = some d →
      parse_date k.stop = some e → d.key ≤ e.key → kContribOf k t = t.remanent) ∧
    (∀ (t : Transaction) (k : KPeriod) (s d : DateTime),
      parse_date t.date = some d → parse_date k.start = some s →
      parse_date k.stop = some d → s.key ≤ d.key → kContribOf k t = t.remanent) := by
  refine ⟨group_savings_eq_map ts ks, ?_, ?_, ?_, ?_⟩
  · intro ts' hperm
    rw [group_savings_eq_map ts ks, group_savings_eq_map ts' ks]
    refine List.map_congr_left ?_
    intro k _
    have : (ts.map (kContribOf k)).Perm (ts'.map (kContribOf k)) := hperm.map _
    rw [this.sum_eq]
  · intro t k h
    unfold kContribOf
    rw [h]
  · intro t k d e ht hs he hde
    unfold kContribOf
    rw [ht]
    dsimp only
    have : is_in_k_period d k = true := by
      unfold is_in_k_period
      rw [hs, he]
      exact decide_eq_true ⟨le_refl _, hde⟩
    rw [this, if_pos rfl]
  · intro t k s d ht hs he hsd
    unfold kContribOf
    rw [ht]
    dsimp only
    have : is_in_k_period d k = true := by
      unfold is_in_k_period
      rw [hs, he]
      exact decide_eq_true ⟨hsd, le_refl _⟩
    rw [this, if_pos rfl]

theorem claim_C7_witness :
    kContribOf ⟨"2023-01-05 00:00:00", "2023-01-10 00:00:00"⟩
      ⟨"2023-01-05 00:00:00", 250, 300, 50⟩ = 50 :=
  (claim_C7_aggregator [] []).2.2.2.1 ⟨"2023-01-05 00:00:00", 250, 300, 50⟩
    ⟨"2023-01-05 00:00:00", "2023-01-10 00:00:00"⟩ ⟨2023, 1, 5, 0, 0, 0⟩
    ⟨2023, 1, 10, 0, 0, 0⟩ (by decide) (by decide) (by decide) (by decide)

/-- **C8.** Returns projection: a bucket with positive amount gets
`profits = round2(amount*(1+rate)^years/(1+inflation)^years - amount)`
with rate 0.0711 for NPS and 0.1449 for the index vehicle; for NPS only,
`tax_benefit = round2(tax(wage*12) - tax(wage*12 - min(amount,
0.10*wage*12, 200000)))` under the four-bracket marginal schedule (which
the source's `calculate_tax` implements); buckets with amount ≤ 0 are
left untouched, and aggregator buckets start with `profits =
tax_benefit = 0`. -/
theorem claim_C8_returns_projection :
    (∀ x : ℚ, calculate_tax x = tax_bracket_spec x) ∧
    (∀ (b : Bool) (age : ℤ) (wage inflation : ℚ) (s : SavingsByDate),
      (s.amount ≤ 0 → process_returns_bucket b age wage inflation s = s) ∧
      (0 < s.amount →
        (process_returns_bucket b age wage inflation s).profits
            = round2 (s.amount *
                (1 + (if b then (711 : ℚ) / 10000 else 1449 / 10000)) ^ calculate_time age
                / (1 + inflation) ^ calculate_time age - s.amount) ∧
        (b = true →
          (process_returns_bucket b age wage inflation s).tax_benefit
              = round2 (tax_bracket_spec (wage * 12)
                  - tax_bracket_spec (wage * 12
                      - min (min s.amount (wage * 12 * (10 / 100))) 200000))) ∧
        (b = false →
          (process_returns_bucket b age wage inflation s).tax_benefit
              = s.tax_benefit))) ∧
    (∀ (req : ReturnsRequest) (b : Bool),
      (process_returns req b).savings_by_dates
          = (group_savings_by_k (filtered_transactions req) req.k).map
              (process_returns_bucket b req.age req.wage req.inflation)) ∧
    (∀ (ts : List Transaction) (ks : List KPeriod), ∀ s ∈ group_savings_by_k ts ks,
      s.profits = 0 ∧ s.tax_benefit = 0) := by
  refine ⟨calculate_tax_eq_bracket_spec, ?_, fun req b => rfl, ?_⟩
  · intro b age wage inflation s
    constructor
    · intro h
      unfold process_returns_bucket
      rw [if_neg (not_lt.mpr h)]
    · intro h
      cases b
      · unfold process_returns_bucket
        dsimp only
        rw [if_pos h]
        exact ⟨rfl, fun hb => Bool.noConfusion hb, fun _ => rfl⟩
      · unfold process_returns_bucket
        dsimp only
        rw [if_pos h]
        refine ⟨rfl, fun _ => ?_, fun hb => Bool.noConfusion hb⟩
        show round2 (calculate_tax_benefit s.amount (wage * 12)) = _
        unfold calculate_tax_benefit
        dsimp only
        rw [calculate_tax_max_zero, calculate_tax_eq_bracket_spec,
          calculate_tax_eq_bracket_spec]
  · intro ts ks s hs
    rw [group_savings_by_k] at hs
    obtain ⟨k, -, rfl⟩ := List.mem_map.mp hs
    exact ⟨rfl, rfl⟩

theorem claim_C8_witness :
    process_returns_bucket true 30 80000 (5 / 100) ⟨"s", "e", 0, 0, 0⟩
      = ⟨"s", "e", 0, 0, 0⟩ :=
  (claim_C8_returns_projection.2.1 true 30 80000 (5 / 100) ⟨"s", "e", 0, 0, 0⟩).1
    (by norm_num)

/-- **C10.** A Q, P or K period with an unparsable bound is silently
inert: it never enters the Q matching list, it contributes nothing to
the P sum, its containment test is always false so its K bucket sums to
0, and the period lists never influence the engine's error outcome. -/
theorem claim_C10_malformed_periods (d : DateTime) :
    (∀ (qs : List QPeriod) (x : QPeriod × Nat × DateTime), x ∈ matchingQ qs d →
      parse_date x.1.start = some x.2.2 ∧ ∃ e, parse_date x.1.stop = some e) ∧
    (∀ (ps₁ ps₂ : List PPeriod) (p : PPeriod),
      parse_date p.start = none ∨ parse_date p.stop = none →
      pExtraSum (ps₁ ++ p :: ps₂) d = pExtraSum (ps₁ ++ ps₂) d) ∧
    (∀ k : KPeriod, parse_date k.start = none ∨ parse_date k.stop = none →
      (∀ t_date : DateTime, is_in_k_period t_date k = false) ∧
      ∀ ts : List Transaction,
        group_savings_by_k ts [k]
          = [{ start := k.start, stop := k.stop, amount := 0
               profits := 0, tax_benefit := 0 }]) ∧
    (∀ (t : Transaction) (qs qs' : List QPeriod) (ps ps' : List PPeriod)
        (ks ks' : List KPeriod),
      (apply_temporal_rules t qs ps ks).2 = (apply_temporal_rules t qs' ps' ks').2) := by
  refine ⟨fun qs x hx => matchingQAux_parses d 0 qs x hx, ?_, ?_, ?_⟩
  · intro ps₁ ps₂ p h
    have hzero : pContribOf d p = 0 := by
      unfold pContribOf
      rcases h with h | h
      · rw [h]
      · rw [h]
        cases parse_date p.start <;> rfl
    rw [pExtraSum_eq_sum, pExtraSum_eq_sum, List.map_append, List.sum_append,
      List.map_cons, List.sum_cons, hzero, zero_add, List.map_append,
      List.sum_append]
  · intro k h
    have hfalse : ∀ t_date : DateTime, is_in_k_period t_date k = false := by
      intro t_date
      unfold is_in_k_period
      rcases h with h | h
      · rw [h]
      · rw [h]
        cases parse_date k.start <;> rfl
    refine ⟨hfalse, ?_⟩
    intro ts
    have hzero2 : ∀ x ∈ ts.map (kContribOf k), x = 0 := by
      intro x hx
      obtain ⟨t, -, rfl⟩ := List.mem_map.mp hx
      unfold kContribOf
      cases parse_date t.date with
      | none => rfl
      | some dt =>
        dsimp only
        rw [hfalse dt]
        rfl
    rw [group_savings_eq_map]
    simp only [List.map_cons, List.map_nil]
    rw [List.sum_eq_zero hzero2]
  · intro t qs qs' ps ps' ks ks'
    unfold apply_temporal_rules
    cases parse_date t.date <;> rfl

theorem claim_C10_witness :
    pExtraSum ([] ++ ⟨5, "garbage", "2023-01-10 00:00:00"⟩ :: []) ⟨2023, 1, 5, 0, 0, 0⟩
      = pExtraSum ([] ++ []) ⟨2023, 1, 5, 0, 0, 0⟩ :=
  (claim_C10_malformed_periods ⟨2023, 1, 5, 0, 0, 0⟩).2.1 [] []
    ⟨5, "garbage", "2023-01-10 00:00:00"⟩ (Or.inl (by decide))

/-- **C9 counterexample.** The claim says `calculate_time age` is always
at least 5, but an investor of age 59 gets a horizon of 1 year. -/
theorem claim_C9_counterexample :
    calculate_time 59 = 1 ∧ ¬ (5 ≤ calculate_time 59) := by
  constructor <;> decide

/-- **C9 (amended).** `calculate_time age` is an integer ≥ 1 (ages 56–59
yield horizons 1–4, so 5 is not a lower bound), and that still makes the
divisor `(1+inflation)^years` nonzero for every inflation > -1. -/
theorem claim_C9_time_horizon_amended (age : ℤ) :
    1 ≤ calculate_time age ∧
    ∀ inflation : ℚ, -1 < inflation → (1 + inflation) ^ calculate_time age ≠ 0 := by
  constructor
  · unfold calculate_time
    split <;> omega
  · intro inflation h
    have hb : (1 + inflation) ≠ 0 := by linarith
    exact zpow_ne_zero _ hb

theorem claim_C9_witness :
    1 ≤ calculate_time 59 ∧ (1 + (0 : ℚ)) ^ calculate_time 59 ≠ 0 :=
  ⟨(claim_C9_time_horizon_amended 59).1,
    (claim_C9_time_horizon_amended 59).2 0 (by norm_num)⟩
